import Mathlib

/-
Verification of the vehicle search/fallback engine (src/main.py, class
VehicleSearchEngine).  The Python code is shallowly embedded: records are
association lists of Python-like values, strings are manipulated through
List-Char primitives that model the Python str methods used by the source,
and the external text facilities (unidecode transliteration and the two
rapidfuzz similarity scores) are abstracted as an explicit environment over
which the properties quantify.
-/

/-! ### Python-level primitives -/

/-- Python whitespace characters, as recognized by str.strip and str.split. -/
def isPyWs (c : Char) : Bool :=
  c = ' ' || c = '\t' || c = '\n' || c = '\r' || c = '\x0b' || c = '\x0c'

/-- Models Python str.strip(): drops whitespace at both ends. -/
def pyStrip (s : String) : String :=
  ⟨((s.data.dropWhile isPyWs).reverse.dropWhile isPyWs).reverse⟩

/-- Left-to-right non-overlapping replacement on character lists, as performed by
Python str.replace (which replaces every occurrence).  An empty pattern is never
used by the embedded code and is treated as the identity.  The fuel argument
(structural recursion, so the definition evaluates inside the kernel) bounds the
number of consumed characters; each step consumes at least one, so the input
length suffices. -/
def replaceFuel (pat rep : List Char) : Nat → List Char → List Char
  | 0, l => l
  | _ + 1, [] => []
  | fuel + 1, c :: rest =>
    if pat ≠ [] ∧ pat.isPrefixOf (c :: rest) then
      rep ++ replaceFuel pat rep fuel ((c :: rest).drop pat.length)
    else
      c :: replaceFuel pat rep fuel rest

def replaceL (pat rep l : List Char) : List Char :=
  replaceFuel pat rep l.length l

/-- Models Python s.replace(pat, rep). -/
def pyReplace (s pat rep : String) : String :=
  ⟨replaceL pat.data rep.data s.data⟩

/-- Substring containment on character lists: models the Python `in` operator on
strings. -/
def isInfixL (pat : List Char) : List Char → Bool
  | [] => pat.isEmpty
  | c :: rest => pat.isPrefixOf (c :: rest) || isInfixL pat rest

/-- Splits a character list at every character satisfying the predicate, keeping
empty pieces (the behaviour of Python str.split with an explicit separator). -/
def splitSepP (p : Char → Bool) : List Char → List (List Char)
  | [] => [[]]
  | c :: rest =>
    match splitSepP p rest with
    | [] => [[]]
    | g :: gs => if p c then [] :: g :: gs else (c :: g) :: gs

/-- Models Python s.split(sep) for a one-character separator. -/
def pySplit (s : String) (sep : Char) : List String :=
  (splitSepP (fun c => c = sep) s.data).map (fun l => (⟨l⟩ : String))

/-- Models Python s.split() with no argument: split on whitespace runs, dropping
empty pieces. -/
def pySplitWs (s : String) : List String :=
  ((splitSepP isPyWs s.data).filter (fun l => l ≠ [])).map (fun l => (⟨l⟩ : String))

/-- Models Python str.lower(); agrees with Python on the ASCII letters used by
this development. -/
def pyLower (s : String) : String :=
  ⟨s.data.map Char.toLower⟩

/-- Numeric value of a list of decimal digit characters. -/
def digitsVal (cs : List Char) : Nat :=
  cs.foldl (fun a c => a * 10 + (c.toNat - 48)) 0

/-- Models Python int(str): optional surrounding whitespace, optional sign, one
or more decimal digits; anything else raises ValueError, modelled as failure. -/
def parsePyInt (s : String) : Option Int :=
  match (pyStrip s).data with
  | [] => Option.none
  | '-' :: rest =>
    if rest ≠ [] ∧ rest.all Char.isDigit then some (-(digitsVal rest : Int)) else Option.none
  | '+' :: rest =>
    if rest ≠ [] ∧ rest.all Char.isDigit then some ((digitsVal rest : Int) : Int) else Option.none
  | cs =>
    if cs.all Char.isDigit then some ((digitsVal cs : Int) : Int) else Option.none

/-- Mantissa of a Python float literal: digits with an optional decimal point,
at least one digit present. -/
def parseMantissa (cs : List Char) : Option Rat :=
  match splitSepP (fun c => c = '.') cs with
  | [ip] =>
    if ip ≠ [] ∧ ip.all Char.isDigit then some ((digitsVal ip : Int) : Rat) else Option.none
  | [ip, fp] =>
    if (ip ≠ [] ∨ fp ≠ []) ∧ ip.all Char.isDigit ∧ fp.all Char.isDigit then
      some (((digitsVal ip : Int) : Rat) + ((digitsVal fp : Int) : Rat) / ((10 : Rat) ^ fp.length))
    else Option.none
  | _ => Option.none

/-- Applies an optional leading sign and defers to the given parser. -/
def parseSigned (cs : List Char) (f : List Char → Option Rat) : Option Rat :=
  match cs with
  | '-' :: rest => (f rest).map (fun q => -q)
  | '+' :: rest => f rest
  | _ => f cs

/-- Exponent part of a float literal: optional sign and digits, no whitespace. -/
def parseExpPart (cs : List Char) : Option Int :=
  match cs with
  | '-' :: rest =>
    if rest ≠ [] ∧ rest.all Char.isDigit then some (-(digitsVal rest : Int)) else Option.none
  | '+' :: rest =>
    if rest ≠ [] ∧ rest.all Char.isDigit then some ((digitsVal rest : Int) : Int) else Option.none
  | _ =>
    if cs ≠ [] ∧ cs.all Char.isDigit then some ((digitsVal cs : Int) : Int) else Option.none

/-- Models Python float(str) on finite decimal literals: optional whitespace and
sign, digits with optional fractional part, optional decimal exponent.  The
non-finite literals (inf, nan) do not occur in the data handled here and are
modelled as failure. -/
def parsePyFloat (s : String) : Option Rat :=
  let cs := (pyStrip s).data
  match splitSepP (fun c => c = 'e' || c = 'E') cs with
  | [m] => parseSigned m parseMantissa
  | [m, e] =>
    match parseSigned m parseMantissa, parseExpPart e with
    | some q, some ex => some (q * (10 : Rat) ^ ex)
    | _, _ => Option.none
  | _ => Option.none

/-! ### The data model -/

/-- A Python value as it occurs in a vehicle record field. -/
inductive PyVal where
  | none : PyVal
  | int : Int → PyVal
  | float : Rat → PyVal
  | str : String → PyVal
deriving DecidableEq

/-- Python truthiness of a record value (None, 0, 0.0 and "" are falsy). -/
def pyTruthy : PyVal → Bool
  | .none => false
  | .int n => n ≠ 0
  | .float q => q ≠ 0
  | .str s => s ≠ ""

/-- Models Python str() on record values.  Non-integral floats are rendered as
exact rationals rather than shortest-decimal notation; every record field used
in the properties below is a string or an integer, where the rendering agrees
with Python. -/
def pyStr : PyVal → String
  | .none => "None"
  | .int n => toString n
  | .float q => if q.den = 1 then toString q.num ++ ".0" else toString q
  | .str s => s

/-- A vehicle record: a Python dict from field names to values (main.py works on
`List[Dict]` loaded from data.json). -/
abbrev Veh := List (String × PyVal)

/-- dict.get(k, d) on a record: value of the first binding of k, else the default. -/
def vget (v : Veh) (k : String) (d : PyVal) : PyVal :=
  match v.find? (fun p => p.1 == k) with
  | some p => p.2
  | _ => d

/-! ### The search engine (VehicleSearchEngine, main.py lines 38-420) -/

/-- self.fuzzy_fields (main.py line 42). -/
def fuzzy_fields : List String := ["veiculo", "placa", "cor"]

/-- FALLBACK_PRIORITY (main.py lines 19-25). -/
def FALLBACK_PRIORITY : List String := ["cor", "ano", "km", "valorIdealVenda", "veiculo"]

/-- RANGE_FALLBACK (main.py line 28). -/
def RANGE_FALLBACK : List String := ["KmMax", "AnoMax", "ValorMax"]

/-- The external text facilities the engine depends on: the unidecode
transliteration and the two rapidfuzz similarity scores (fuzz.partial_ratio and
fuzz.ratio, each valued in the 0-100 range).  The engine is embedded as a
function of this environment and the general properties quantify over it. -/
structure FuzzEnv where
  unidecode : String → String
  partRatio : String → String → Rat
  fullRatio : String → String → Rat

/-- A concrete environment for evaluating the engine on accent-free ASCII data:
transliteration is the identity and both similarity scores are constantly zero
(the fuzzy-score branch is then never taken, exactly as rapidfuzz behaves when
no branch examined below depends on it). -/
def asciiEnv : FuzzEnv := ⟨id, fun _ _ => 0, fun _ _ => 0⟩

/-- normalize_text (main.py lines 45-49): transliterate, lower-case, remove
hyphens and spaces, strip. -/
def normalize_text (env : FuzzEnv) (text : String) : String :=
  if text = "" then ""
  else pyStrip (pyReplace (pyReplace (pyLower (env.unidecode text)) "-" "") " " "")

/-- convert_price (main.py lines 51-64): falsy input gives None; numbers are
coerced to float; strings are cleaned of "R$", thousands dots and the decimal
comma, then parsed; any parse failure gives None. -/
def convert_price (price : PyVal) : Option Rat :=
  if !pyTruthy price then Option.none
  else
    match price with
    | .int n => some ((n : Int) : Rat)
    | .float q => some q
    | .str s => parsePyFloat (pyStrip (pyReplace (pyReplace (pyReplace s "R$" "") "." "") "," "."))
    | .none => Option.none

/-- convert_year (main.py lines 66-75): falsy input gives None; otherwise the
first '/'-separated segment of str(value).strip() is parsed as an int. -/
def convert_year (year : PyVal) : Option Int :=
  if !pyTruthy year then Option.none
  else
    match splitSepP (fun c => c = '/') (pyStrip (pyStr year)).data with
    | [] => Option.none
    | part :: _ => parsePyInt (⟨part⟩ : String)

/-- convert_km (main.py lines 77-85): falsy input gives None; otherwise dots and
commas are removed from str(value) and the stripped remainder parsed as int. -/
def convert_km (km : PyVal) : Option Int :=
  if !pyTruthy km then Option.none
  else parsePyInt (pyStrip (pyReplace (pyReplace (pyStr km) "." "") "," ""))

/-- split_multi_value (main.py lines 103-107): split on commas, strip each part,
drop empty parts. -/
def split_multi_value (value : String) : List String :=
  if value = "" then []
  else ((pySplit value ',').map pyStrip).filter (fun s => s ≠ "")

/-- Loop body of fuzzy_match over the query words (main.py lines 116-132). -/
def fuzzy_words (env : FuzzEnv) (nc : String) : List String → Bool × String
  | [] => (false, "no_match")
  | w :: ws =>
    let nw := normalize_text env w
    if nw.length < 2 then fuzzy_words env nc ws
    else if isInfixL nw.data nc.data then (true, "exact_match: " ++ nw)
    else if 3 ≤ nw.length then
      let score := max (env.partRatio nc nw) (env.fullRatio nc nw)
      if 80 ≤ score then (true, "fuzzy_match: " ++ toString score)
      else fuzzy_words env nc ws
    else fuzzy_words env nc ws

/-- fuzzy_match (main.py lines 109-134). -/
def fuzzy_match (env : FuzzEnv) (query_words : List String) (field_content : String) :
    Bool × String :=
  if query_words = [] ∨ field_content = "" then (false, "empty_input")
  else fuzzy_words env (normalize_text env field_content) query_words

/-- model_exists_in_database (main.py lines 87-101). -/
def model_exists_in_database (env : FuzzEnv) (vehicles : List Veh) (model_query : String) :
    Bool :=
  if model_query = "" then false
  else
    let query_words := pySplitWs model_query
    vehicles.any (fun v =>
      let s := pyStr (vget v "veiculo" (.str ""))
      s ≠ "" && (fuzzy_match env query_words s).1)

/-- Predicate of one filter over one record (the two list comprehensions of
apply_filters, main.py lines 147-168): fuzzy fields pool the words of all
comma-separated alternatives and fuzzy-match them against the field; other
fields compare normalized values for membership in the normalized alternatives. -/
def filter_pass (env : FuzzEnv) (k val : String) (v : Veh) : Bool :=
  if fuzzy_fields.contains k then
    let all_words := (split_multi_value val).flatMap pySplitWs
    (fuzzy_match env all_words (pyStr (vget v k (.str "")))).1
  else
    ((split_multi_value val).map (normalize_text env)).contains
      (normalize_text env (pyStr (vget v k (.str ""))))

/-- apply_filters (main.py lines 136-170): sequentially reduce the candidate
list by each filter, skipping filters whose value is empty and doing nothing
once the list is empty. -/
def apply_filters (env : FuzzEnv) (vehicles : List Veh) :
    List (String × String) → List Veh
  | [] => vehicles
  | (k, val) :: rest =>
    apply_filters env
      (if val = "" || vehicles.isEmpty then vehicles
       else vehicles.filter (filter_pass env k val)) rest

/-- Truthiness of an optional query-string parameter (None and "" are falsy). -/
def optActive : Option String → Bool
  | some s => s ≠ ""
  | _ => false

/-- apply_range_filters (main.py lines 172-235): price ceiling with +25000
tolerance, year floor at target-3, and the mileage band anchored at the minimum
available mileage when that minimum exceeds the target, capped at target+30000.
A bound that is absent, empty or unparseable is skipped. -/
def apply_range_filters (vehicles : List Veh) (valormax anomax kmmax : Option String) :
    List Veh :=
  let fv1 :=
    if optActive valormax then
      match parsePyFloat (valormax.getD "") with
      | some m =>
        let max_price := m + 25000
        vehicles.filter (fun v =>
          match convert_price (vget v "valorIdealVenda" .none) with
          | some p => p ≤ max_price
          | _ => false)
      | _ => vehicles
    else vehicles
  let fv2 :=
    if optActive anomax then
      match parsePyInt (anomax.getD "") with
      | some ty =>
        let min_year := ty - 3
        fv1.filter (fun v =>
          match convert_year (vget v "ano" .none) with
          | some y => min_year ≤ y
          | _ => false)
      | _ => fv1
    else fv1
  if optActive kmmax then
    match parsePyInt (kmmax.getD "") with
    | some target =>
      let max_km := target + 30000
      let kms := fv2.filterMap (fun v => convert_km (vget v "km" .none))
      match kms.min? with
      | some min_av =>
        let lo : Int := if target < min_av then min_av else 0
        fv2.filter (fun v =>
          match convert_km (vget v "km" .none) with
          | some kv => lo ≤ kv && kv ≤ max_km
          | _ => false)
      | _ => fv2
    | _ => fv2
  else fv2

/-- Stable insertion of an element into a sorted list: the element goes before
the first list element it compares less-or-equal to, hence after all elements
tied with it. -/
def pyInsert {α : Type} (le : α → α → Bool) (x : α) : List α → List α
  | [] => [x]
  | y :: ys => if le x y then x :: y :: ys else y :: pyInsert le x ys

/-- Stable sort by a boolean total preorder: models Python sorted().  Python
sorted is a stable sort, and any two stable sorts under the same total preorder
produce the same list, so this structurally recursive implementation is
extensionally the sort the source performs. -/
def pySorted {α : Type} (le : α → α → Bool) : List α → List α
  | [] => []
  | x :: xs => pyInsert le x (pySorted le xs)

/-- Sort key for the KmMax rule (main.py line 245): `convert_km(...) or inf`,
so a missing or zero mileage sorts as positive infinity (None here). -/
def kmSortKey (v : Veh) : Option Int :=
  match convert_km (vget v "km" .none) with
  | some kv => if kv = 0 then Option.none else some kv
  | _ => Option.none

/-- Order on mileage keys where None stands for positive infinity. -/
def kmLe (a b : Option Int) : Bool :=
  match a, b with
  | some x, some y => x ≤ y
  | some _, Option.none => true
  | Option.none, some _ => false
  | Option.none, Option.none => true

/-- Default ordering (main.py line 266): price descending, missing price as 0. -/
def sort_default (vehicles : List Veh) : List Veh :=
  pySorted (fun a b =>
    decide (((convert_price (vget b "valorIdealVenda" .none)).getD 0) ≤
      ((convert_price (vget a "valorIdealVenda" .none)).getD 0))) vehicles

/-- AnoMax ordering (main.py lines 257-263) falling back to the default. -/
def sort_by_ano (vehicles : List Veh) (anomax : Option String) : List Veh :=
  if optActive anomax then
    match parsePyInt (anomax.getD "") with
    | some ty =>
      pySorted (fun a b =>
        decide (|((convert_year (vget a "ano" .none)).getD 0) - ty| ≤
          |((convert_year (vget b "ano" .none)).getD 0) - ty|)) vehicles
    | _ => sort_default vehicles
  else sort_default vehicles

/-- sort_vehicles (main.py lines 237-266): KmMax ascending mileage first, then
ValorMax by price proximity, then AnoMax by year proximity, else price
descending.  Python sorted is stable, as is mergeSort. -/
def sort_vehicles (vehicles : List Veh) (valormax anomax kmmax : Option String) :
    List Veh :=
  if vehicles.isEmpty then vehicles
  else if optActive kmmax then
    pySorted (fun a b => kmLe (kmSortKey a) (kmSortKey b)) vehicles
  else if optActive valormax then
    match parsePyFloat (valormax.getD "") with
    | some tp =>
      pySorted (fun a b =>
        decide (|((convert_price (vget a "valorIdealVenda" .none)).getD 0) - tp| ≤
          |((convert_price (vget b "valorIdealVenda" .none)).getD 0) - tp|)) vehicles
    | _ => sort_by_ano vehicles anomax
  else sort_by_ano vehicles anomax

/-! ### The fallback orchestrator (search_with_fallback, main.py lines 268-420) -/

/-- The fallback_info dict attached to a SearchResult: empty, the
single-filter short-circuit reason, or the removed-filter report with an
optional reason tag. -/
inductive FallbackInfo where
  | empty : FallbackInfo
  | noFallback (reason : String) : FallbackInfo
  | fallback (removed : List String) (reason : Option String) : FallbackInfo
deriving DecidableEq

/-- SearchResult (main.py lines 30-36). -/
structure SearchResult where
  vehicles : List Veh
  total_found : Nat
  fallback_info : FallbackInfo
  removed_filters : List String
deriving DecidableEq

/-- One candidate search configuration: the active filters and range bounds of
one attempt of the fallback state machine. -/
structure Config where
  filters : List (String × String)
  valormax : Option String
  anomax : Option String
  kmmax : Option String
deriving DecidableEq

/-- Removal of excluded sequencia ids (main.py lines 277-281). -/
def exclude_ids (vehicles : List Veh) (excluded : List String) : List Veh :=
  if excluded.isEmpty then vehicles
  else vehicles.filter (fun v => !excluded.contains (pyStr (vget v "sequencia" .none)))

/-- One strict attempt: apply_filters, then apply_range_filters, then exclusion
(the block repeated at main.py lines 274-281, 317-321, 359-366 and 394-401). -/
def runAttempt (env : FuzzEnv) (vehicles : List Veh) (c : Config)
    (excluded : List String) : List Veh :=
  exclude_ids
    (apply_range_filters (apply_filters env vehicles c.filters) c.valormax c.anomax c.kmmax)
    excluded

/-- Builds the successful SearchResult of an attempt: sort, cap at 6, report the
pre-cap total (main.py lines 283-291 and the analogous success returns). -/
def successResult (fv : List Veh) (valormax anomax kmmax : Option String)
    (info : FallbackInfo) (removed : List String) : SearchResult :=
  let sv := sort_vehicles fv valormax anomax kmmax
  ⟨sv.take 6, sv.length, info, removed⟩

/-- State of the range-relaxation loop (main.py lines 339-377) on exit: the
early result if an attempt succeeded, the remaining range bounds, the
accumulated removed list, and the configuration reached after each removal
performed by the loop (instrumentation used to state the relaxation
invariants). -/
structure RangeLoopOut where
  result : Option SearchResult
  valormax : Option String
  anomax : Option String
  kmmax : Option String
  removed : List String
  steps : List Config
deriving DecidableEq

/-- Outcome of one performed removal in the range loop (main.py lines 357-377):
an empty retry records the attempted configuration and continues with the rest
of the loop, a non-empty retry returns the sorted, capped result. -/
def rangeFinish (cfg : Config) (fv : List Veh) (removed' : List String)
    (next : RangeLoopOut) : RangeLoopOut :=
  if fv.isEmpty then { next with steps := cfg :: next.steps }
  else
    ⟨some (successResult fv cfg.valormax cfg.anomax cfg.kmmax
        (.fallback removed' Option.none) removed'),
      cfg.valormax, cfg.anomax, cfg.kmmax, removed', [cfg]⟩

/-- The range-relaxation loop (main.py lines 345-377): iterate RANGE_FALLBACK,
clear each active bound in turn, retry, and stop at the first success. -/
def rangeLoop (env : FuzzEnv) (vehicles : List Veh) (filters : List (String × String))
    (excluded : List String) :
    List String → Option String → Option String → Option String → List String →
    RangeLoopOut
  | [], v, a, k, removed => ⟨Option.none, v, a, k, removed, []⟩
  | p :: ps, v, a, k, removed =>
    if p == "ValorMax" && optActive v then
      rangeFinish ⟨filters, Option.none, a, k⟩
        (runAttempt env vehicles ⟨filters, Option.none, a, k⟩ excluded) (removed ++ [p])
        (rangeLoop env vehicles filters excluded ps Option.none a k (removed ++ [p]))
    else if p == "AnoMax" && optActive a then
      rangeFinish ⟨filters, v, Option.none, k⟩
        (runAttempt env vehicles ⟨filters, v, Option.none, k⟩ excluded) (removed ++ [p])
        (rangeLoop env vehicles filters excluded ps v Option.none k (removed ++ [p]))
    else if p == "KmMax" && optActive k then
      rangeFinish ⟨filters, v, a, Option.none⟩
        (runAttempt env vehicles ⟨filters, v, a, Option.none⟩ excluded) (removed ++ [p])
        (rangeLoop env vehicles filters excluded ps v a Option.none (removed ++ [p]))
    else rangeLoop env vehicles filters excluded ps v a k removed

/-- State of the filter-relaxation loop (main.py lines 379-412) on exit. -/
structure FilterLoopOut where
  result : Option SearchResult
  filters : List (String × String)
  removed : List String
  steps : List Config
deriving DecidableEq

/-- Outcome of one performed removal in the filter loop (main.py lines
393-412): an empty retry records the attempted configuration and continues, a
non-empty retry returns the sorted, capped result. -/
def filterFinish (cfg : Config) (fv : List Veh) (removed' : List String)
    (next : FilterLoopOut) : FilterLoopOut :=
  if fv.isEmpty then { next with steps := cfg :: next.steps }
  else
    ⟨some (successResult fv cfg.valormax cfg.anomax cfg.kmmax
        (.fallback removed' Option.none) removed'),
      cfg.filters, removed', [cfg]⟩

/-- The filter-relaxation loop (main.py lines 380-412): iterate
FALLBACK_PRIORITY, skip filters not present, break when at most one filter with
a non-empty value remains, otherwise remove the filter, retry, and stop at the
first success. -/
def filterLoop (env : FuzzEnv) (vehicles : List Veh)
    (valormax anomax kmmax : Option String) (excluded : List String) :
    List String → List (String × String) → List String → FilterLoopOut
  | [], cur, removed => ⟨Option.none, cur, removed, []⟩
  | f :: fs, cur, removed =>
    if !cur.any (fun p => p.1 == f) then
      filterLoop env vehicles valormax anomax kmmax excluded fs cur removed
    else if (cur.filter (fun p => p.2 ≠ "")).length ≤ 1 then
      ⟨Option.none, cur, removed, []⟩
    else
      filterFinish ⟨cur.filter (fun p => p.1 ≠ f), valormax, anomax, kmmax⟩
        (runAttempt env vehicles ⟨cur.filter (fun p => p.1 ≠ f), valormax, anomax, kmmax⟩
          excluded)
        (removed ++ [f])
        (filterLoop env vehicles valormax anomax kmmax excluded fs
          (cur.filter (fun p => p.1 ≠ f)) (removed ++ [f]))

/-- The two relaxation loops run in sequence (main.py lines 339-420): range
relaxation first, then filter relaxation on the surviving filters, then the
final empty result carrying the accumulated removed list.  Returns the
result together with the configurations reached after each removal. -/
def runLoops (env : FuzzEnv) (vehicles : List Veh) (cur : List (String × String))
    (valormax anomax kmmax : Option String) (excluded : List String)
    (removed0 : List String) : SearchResult × List Config :=
  let rout := rangeLoop env vehicles cur excluded RANGE_FALLBACK valormax anomax kmmax removed0
  match rout.result with
  | some r => (r, rout.steps)
  | Option.none =>
    let fout := filterLoop env vehicles rout.valormax rout.anomax rout.kmmax excluded
      FALLBACK_PRIORITY cur rout.removed
    match fout.result with
    | some r => (r, rout.steps ++ fout.steps)
    | Option.none =>
      ((⟨[], 0, .empty, fout.removed⟩ : SearchResult), rout.steps ++ fout.steps)

/-- search_with_fallback (main.py lines 268-420), instrumented: the second
component records the configuration trajectory of the call, namely the strict
configuration followed by the configuration reached after each removal the
state machine performs (the model-filter drop, then each range removal, then
each filter removal). -/
def search_with_fallback_full (env : FuzzEnv) (vehicles : List Veh)
    (filters : List (String × String)) (valormax anomax kmmax : Option String)
    (excluded : List String) : SearchResult × List Config :=
  let c0 : Config := ⟨filters, valormax, anomax, kmmax⟩
  let fv0 := runAttempt env vehicles c0 excluded
  if !fv0.isEmpty then
    (successResult fv0 valormax anomax kmmax .empty [], [c0])
  else if filters.length = 1 && !filters.any (fun p => p.1 == "veiculo") then
    ((⟨[], 0, .noFallback "single_filter_not_model", []⟩ : SearchResult), [c0])
  else
    let probe : Option SearchResult × List (String × String) × List String × List Config :=
      if filters.any (fun p => p.1 == "veiculo") then
        let model_value :=
          match filters.find? (fun p => p.1 == "veiculo") with
          | some p => p.2
          | _ => ""
        if !model_exists_in_database env vehicles model_value then
          let removed1 := ["veiculo(" ++ model_value ++ ")"]
          let cur1 := filters.filter (fun p => p.1 ≠ "veiculo")
          let c1 : Config := ⟨cur1, valormax, anomax, kmmax⟩
          if !cur1.isEmpty then
            let fv1 := runAttempt env vehicles c1 excluded
            if !fv1.isEmpty then
              (some (successResult fv1 valormax anomax kmmax
                  (.fallback removed1 (some "model_not_found_in_database")) removed1),
                cur1, removed1, [c1])
            else (Option.none, cur1, removed1, [c1])
          else (Option.none, cur1, removed1, [c1])
        else (Option.none, filters, [], [])
      else (Option.none, filters, [], [])
    match probe with
    | (some r, _, _, tr) => (r, c0 :: tr)
    | (Option.none, cur, removed0, tr) =>
      ((runLoops env vehicles cur valormax anomax kmmax excluded removed0).1,
        c0 :: (tr ++ (runLoops env vehicles cur valormax anomax kmmax excluded removed0).2))

/-- search_with_fallback as exposed by the engine: the SearchResult alone. -/
def search_with_fallback (env : FuzzEnv) (vehicles : List Veh)
    (filters : List (String × String)) (valormax anomax kmmax : Option String)
    (excluded : List String) : SearchResult :=
  (search_with_fallback_full env vehicles filters valormax anomax kmmax excluded).1

/-! ### Basic lemmas about the filter applicator -/

/-- The conjunction of all active filters, as a predicate on one record. -/
def passAll (env : FuzzEnv) (fs : List (String × String)) (v : Veh) : Bool :=
  fs.all (fun kv => kv.2 == "" || filter_pass env kv.1 kv.2 v)

theorem apply_filters_eq_filter (env : FuzzEnv) (vs : List Veh)
    (fs : List (String × String)) :
    apply_filters env vs fs = vs.filter (passAll env fs) := by
  induction fs generalizing vs with
  | nil =>
    show vs = _
    symm
    rw [List.filter_eq_self]
    intro a _
    rfl
  | cons kv rest ih =>
    obtain ⟨k, val⟩ := kv
    show apply_filters env
      (if val = "" || vs.isEmpty then vs else vs.filter (filter_pass env k val)) rest = _
    by_cases hval : val = ""
    · subst hval
      rw [if_pos (by simp), ih]
      apply List.filter_congr
      intro a _
      simp [passAll, List.all_cons]
    · by_cases hvs : vs.isEmpty
      · have hnil : vs = [] := by simpa [List.isEmpty_iff] using hvs
        subst hnil
        simp [ih]
      · have hb : (val == "") = false := by simp [hval]
        rw [if_neg (by simp [hval, hvs]), ih, List.filter_filter]
        apply List.filter_congr
        intro a _
        simp [passAll, List.all_cons, hb, Bool.and_comm]

theorem all_of_perm {α : Type} {p : α → Bool} {l₁ l₂ : List α} (h : l₁.Perm l₂) :
    l₁.all p = l₂.all p := by
  induction h with
  | nil => rfl
  | cons x _ ih => simp [List.all_cons, ih]
  | swap x y l => simp [List.all_cons, Bool.and_left_comm]
  | trans _ _ ih1 ih2 => rw [ih1, ih2]

/-- C8: for every record list and every FilterSet, apply_filters returns a
sublist of its input (so no records are invented or duplicated), and the
result does not depend on the iteration order of the filters: any permutation
of the filter list yields the same result. -/
theorem C8_filters_subset_order_independent (env : FuzzEnv) (vs : List Veh)
    (fs fs' : List (String × String)) :
    (apply_filters env vs fs).Sublist vs ∧
    (fs.Perm fs' → apply_filters env vs fs = apply_filters env vs fs') := by
  refine ⟨?_, ?_⟩
  · rw [apply_filters_eq_filter]
    exact List.filter_sublist vs
  · intro h
    rw [apply_filters_eq_filter, apply_filters_eq_filter]
    exact List.filter_congr (fun v _ => all_of_perm h)

def w8rec : Veh := [("cor", PyVal.str "prata"), ("ano", PyVal.str "2020")]

/-- Closed instance of C8 at a concrete snapshot and a concrete pair of
permuted filter lists. -/
theorem C8_filters_witness :
    (apply_filters asciiEnv [w8rec] [("cor", "prata"), ("ano", "2020")]).Sublist [w8rec] ∧
    apply_filters asciiEnv [w8rec] [("cor", "prata"), ("ano", "2020")] =
      apply_filters asciiEnv [w8rec] [("ano", "2020"), ("cor", "prata")] :=
  ⟨(C8_filters_subset_order_independent asciiEnv [w8rec]
      [("cor", "prata"), ("ano", "2020")] [("ano", "2020"), ("cor", "prata")]).1,
   (C8_filters_subset_order_independent asciiEnv [w8rec]
      [("cor", "prata"), ("ano", "2020")] [("ano", "2020"), ("cor", "prata")]).2
     (List.Perm.swap ("ano", "2020") ("cor", "prata") [])⟩

/-! ### C9: behaviour of filters on records with absent or empty fields -/

theorem fuzzy_match_empty_content (env : FuzzEnv) (ws : List String) :
    fuzzy_match env ws "" = (false, "empty_input") := by
  simp [fuzzy_match]

/-- C9 counterexample: the claim says a record whose field is absent is always
excluded by an active exact filter because split_multi_value drops empty parts.
But the alternative is normalized after the split: the active filter value "-"
normalizes to the empty string, which equals the normalized value of the absent
"ano" field, so the record is kept, not excluded. -/
theorem C9_counterexample :
    apply_filters asciiEnv [[("veiculo", PyVal.str "gol")]] [("ano", "-")] =
      [[("veiculo", PyVal.str "gol")]] := by decide

/-- C9 (amended): under every active filter, a record whose field is absent or
empty is excluded by that filter — unconditionally for the fuzzy fields
(fuzzy_match returns false with reason "empty_input" on empty field content),
and for exact fields provided no comma-separated alternative of the filter
value normalizes to the empty string (split_multi_value drops parts that are
empty before normalization, but a non-empty part such as "-" can still
normalize to empty). -/
theorem C9_empty_field_excluded (env : FuzzEnv) (vs : List Veh)
    (fs : List (String × String)) (k val : String)
    (hmem : (k, val) ∈ fs) (hval : val ≠ "")
    (halt : k ∈ fuzzy_fields ∨ ∀ a ∈ split_multi_value val, normalize_text env a ≠ "") :
    (∀ ws, fuzzy_match env ws "" = (false, "empty_input")) ∧
    ∀ v ∈ apply_filters env vs fs, pyStr (vget v k (.str "")) ≠ "" := by
  refine ⟨fun ws => fuzzy_match_empty_content env ws, ?_⟩
  intro v hv hfield
  rw [apply_filters_eq_filter] at hv
  have hpass : passAll env fs v = true := List.of_mem_filter hv
  have hall := List.all_eq_true.mp hpass (k, val) hmem
  have hb : (val == "") = false := by simp [hval]
  have hfp : filter_pass env k val v = true := by simpa [hb] using hall
  unfold filter_pass at hfp
  by_cases hk : fuzzy_fields.contains k
  · rw [if_pos hk, hfield] at hfp
    simp [fuzzy_match_empty_content] at hfp
  · rw [if_neg hk, hfield] at hfp
    have hnorm : normalize_text env "" = "" := rfl
    rw [hnorm] at hfp
    rcases halt with hf | hx
    · exact hk (by simpa using hf)
    · have hfp' : ("" : String) ∈ (split_multi_value val).map (normalize_text env) := by
        simpa using hfp
      obtain ⟨a, ha, hae⟩ := List.mem_map.mp hfp'
      exact hx a ha hae

/-- Closed instance of C9 (amended) at a concrete fuzzy filter and a concrete
surviving record. -/
theorem C9_empty_field_witness :
    fuzzy_match asciiEnv ["prata"] "" = (false, "empty_input") ∧
    pyStr (vget [("cor", PyVal.str "prata")] "cor" (.str "")) ≠ "" :=
  ⟨(C9_empty_field_excluded asciiEnv
      [[("cor", PyVal.str "prata")], [("veiculo", PyVal.str "x")]]
      [("cor", "prata")] "cor" "prata" (by decide) (by decide) (Or.inl (by decide))).1
      ["prata"],
   (C9_empty_field_excluded asciiEnv
      [[("cor", PyVal.str "prata")], [("veiculo", PyVal.str "x")]]
      [("cor", "prata")] "cor" "prata" (by decide) (by decide) (Or.inl (by decide))).2
      [("cor", PyVal.str "prata")] (by decide)⟩

/-! ### C4: convert_price -/

/-- C4 counterexample: the claim says every numeric input is returned as-is
coerced to float, but the numeric input 0 is falsy in Python and hits the
initial `if not price_str` guard, so convert_price returns None, not 0.0. -/
theorem C4_counterexample :
    convert_price (PyVal.int 0) = Option.none ∧
    convert_price (PyVal.int 0) ≠ some 0 := by
  constructor
  · decide
  · decide

/-- C4 (amended): convert_price returns None on every falsy input (None, 0, 0.0
and the empty string, by the leading truthiness guard); every other numeric
input is returned coerced to float; every other string input is cleaned of the
currency symbol "R$", of the "." thousands separators and of the decimal comma
(turned into "."), then parsed as a float, with None — and no exception — on
parse failure (the embedding is total and returns an Option). -/
theorem C4_convert_price_spec (v : PyVal) :
    (pyTruthy v = false → convert_price v = Option.none) ∧
    (∀ n : Int, v = PyVal.int n → n ≠ 0 → convert_price v = some ((n : Int) : Rat)) ∧
    (∀ q : Rat, v = PyVal.float q → q ≠ 0 → convert_price v = some q) ∧
    (∀ s : String, v = PyVal.str s → s ≠ "" →
      convert_price v =
        parsePyFloat (pyStrip (pyReplace (pyReplace (pyReplace s "R$" "") "." "") "," "."))) := by
  refine ⟨?_, ?_, ?_, ?_⟩
  · intro h
    unfold convert_price
    rw [h]
    rfl
  · rintro n rfl hn
    simp [convert_price, pyTruthy, hn]
  · rintro q rfl hq
    simp [convert_price, pyTruthy, hq]
  · rintro s rfl hs
    simp [convert_price, pyTruthy, hs]

/-- Closed instance of C4 (amended): the documented "R$ 12.345,67" format goes
through the cleaning pipeline and the float parse. -/
theorem C4_convert_price_witness :
    convert_price (PyVal.str "R$ 12.345,67") =
      parsePyFloat (pyStrip (pyReplace (pyReplace (pyReplace "R$ 12.345,67" "R$" "") "." "") "," ".")) :=
  (C4_convert_price_spec (PyVal.str "R$ 12.345,67")).2.2.2 "R$ 12.345,67" rfl (by decide)

/-! ### The mileage stage of apply_range_filters (C10, C2, C3) -/

/-- apply_range_filters with only the mileage bound supplied, unfolded: the
price and year stages are skipped and the km stage runs on the input. -/
theorem apply_range_filters_kmonly (vs : List Veh) (ko : Option String) :
    apply_range_filters vs Option.none Option.none ko =
      (if optActive ko then
        match parsePyInt (ko.getD "") with
        | some target =>
          match (vs.filterMap (fun v => convert_km (vget v "km" PyVal.none))).min? with
          | some min_av =>
            vs.filter (fun v =>
              match convert_km (vget v "km" PyVal.none) with
              | some kv => (if target < min_av then min_av else 0) ≤ kv && kv ≤ target + 30000
              | _ => false)
          | _ => vs
        | _ => vs
      else vs) := rfl

/-- C10: in apply_range_filters with a supplied parseable kmmax and no other
bound, if no candidate record has a parseable mileage the mileage filter is
skipped entirely and every candidate passes through unchanged; if at least one
candidate has a parseable mileage, every record without a parseable mileage is
excluded from the result. -/
theorem C10_km_parseability_dichotomy (vs : List Veh) (s : String) (t : Int)
    (hp : parsePyInt s = some t) (hs : s ≠ "") :
    ((∀ v ∈ vs, convert_km (vget v "km" PyVal.none) = Option.none) →
      apply_range_filters vs Option.none Option.none (some s) = vs) ∧
    ((∃ v ∈ vs, (convert_km (vget v "km" PyVal.none)).isSome) →
      ∀ v ∈ apply_range_filters vs Option.none Option.none (some s),
        (convert_km (vget v "km" PyVal.none)).isSome) := by
  have hact : optActive (some s) = true := by simp [optActive, hs]
  constructor
  · intro hnone
    rw [apply_range_filters_kmonly]
    simp only [hact, if_true, Option.getD_some, hp]
    have hkms : vs.filterMap (fun v => convert_km (vget v "km" PyVal.none)) = [] :=
      List.filterMap_eq_nil_iff.mpr hnone
    rw [hkms]
    rfl
  · rintro ⟨w, hw, hws⟩ v hv
    rw [apply_range_filters_kmonly] at hv
    simp only [hact, if_true, Option.getD_some, hp] at hv
    rcases hmin : (vs.filterMap (fun v => convert_km (vget v "km" PyVal.none))).min?
      with _ | m
    · rw [List.min?_eq_none_iff] at hmin
      obtain ⟨y, hy⟩ := Option.isSome_iff_exists.mp hws
      have hmem : y ∈ vs.filterMap (fun v => convert_km (vget v "km" PyVal.none)) :=
        List.mem_filterMap.mpr ⟨w, hw, hy⟩
      rw [hmin] at hmem
      cases hmem
    · rw [hmin] at hv
      have hvp := List.of_mem_filter hv
      rcases hck : convert_km (vget v "km" PyVal.none) with _ | kv
      · rw [hck] at hvp
        simp at hvp
      · simp [hck]

def w10a : Veh := [("cor", PyVal.str "prata")]
def w10b : Veh := [("ano", PyVal.str "2020")]

/-- Closed instance of C10 at a snapshot without any parseable mileage. -/
theorem C10_km_witness :
    apply_range_filters [w10a, w10b] Option.none Option.none (some "50000") = [w10a, w10b] :=
  (C10_km_parseability_dichotomy [w10a, w10b] "50000" 50000 (by decide) (by decide)).1
    (by decide)

/-- C2 counterexample: kmmax=50000 is below the minimum parsed mileage 90000 of
the only candidate, yet that minimum-mileage record is dropped, because the
band's upper bound stays at kmmax+30000 = 80000 < 90000; the claim demands the
record be kept. -/
theorem C2_counterexample :
    apply_range_filters [[("km", PyVal.str "90000")]] Option.none Option.none (some "50000")
      = [] := by decide

theorem min?_int_eq_some {l : List Int} {m : Int} (hm : m ∈ l) (hle : ∀ b ∈ l, m ≤ b) :
    l.min? = some m := by
  haveI : Std.Antisymm (fun (x1 x2 : Int) => x1 ≤ x2) := ⟨fun h h' => le_antisymm h h'⟩
  rw [List.min?_eq_some_iff]
  · exact ⟨hm, hle⟩
  · exact fun a => le_refl a
  · exact fun a b => min_choice a b
  · exact fun a b c => le_min_iff

/-- Core of the anchored mileage band: a record carrying the minimum parsed
mileage m with kmmax target t < m is kept by the km stage whenever m is within
the margin, m ≤ t + 30000. -/
theorem km_band_keeps_min (vs : List Veh) (s : String) (t m : Int) (v : Veh)
    (hp : parsePyInt s = some t) (hs : s ≠ "")
    (hv : v ∈ vs) (hm : convert_km (vget v "km" PyVal.none) = some m)
    (hmin : ∀ w ∈ vs, ∀ mw : Int, convert_km (vget w "km" PyVal.none) = some mw → m ≤ mw)
    (ht : t < m) (hmar : m ≤ t + 30000) :
    v ∈ apply_range_filters vs Option.none Option.none (some s) := by
  have hact : optActive (some s) = true := by simp [optActive, hs]
  rw [apply_range_filters_kmonly]
  simp only [hact, if_true, Option.getD_some, hp]
  have hmem : m ∈ vs.filterMap (fun v => convert_km (vget v "km" PyVal.none)) :=
    List.mem_filterMap.mpr ⟨v, hv, hm⟩
  have hminl : ∀ b ∈ vs.filterMap (fun v => convert_km (vget v "km" PyVal.none)), m ≤ b := by
    intro b hb
    obtain ⟨w, hw, hwb⟩ := List.mem_filterMap.mp hb
    exact hmin w hw b hwb
  rw [min?_int_eq_some hmem hminl]
  apply List.mem_filter.mpr
  refine ⟨hv, ?_⟩
  rw [hm]
  simp [ht, hmar]

/-- C2 (amended): for every candidate set and parseable kmmax below the minimum
parsed mileage among candidates that have one, apply_range_filters keeps the
record holding that minimum mileage provided the minimum does not exceed
kmmax + 30000 (beyond the margin the band [minimum, kmmax+30000] is empty and
even the nearest-available record is excluded, see the counterexample). -/
theorem C2_min_mileage_kept_within_margin (vs : List Veh) (s : String) (t m : Int) (v : Veh)
    (hp : parsePyInt s = some t) (hs : s ≠ "")
    (hv : v ∈ vs) (hm : convert_km (vget v "km" PyVal.none) = some m)
    (hmin : ∀ w ∈ vs, ∀ mw : Int, convert_km (vget w "km" PyVal.none) = some mw → m ≤ mw)
    (ht : t < m) (hmar : m ≤ t + 30000) :
    v ∈ apply_range_filters vs Option.none Option.none (some s) :=
  km_band_keeps_min vs s t m v hp hs hv hm hmin ht hmar

def w2rec : Veh := [("km", PyVal.str "85000")]

/-- Closed instance of C2 (amended): kmmax=60000, single record at 85000 km,
within the 30000 margin, kept. -/
theorem C2_min_mileage_witness :
    w2rec ∈ apply_range_filters [w2rec] Option.none Option.none (some "60000") :=
  C2_min_mileage_kept_within_margin [w2rec] "60000" 60000 85000 w2rec
    (by decide) (by decide) (by decide) (by decide)
    (by
      intro w hw mw hmw
      have hwe : w = w2rec := by simpa using hw
      subst hwe
      have hck : convert_km (vget w2rec "km" PyVal.none) = some 85000 := by decide
      rw [hck] at hmw
      injection hmw with h
      omega)
    (by decide) (by decide)

/-! ### C3: the anchored band scenario -/

def vCorollaA : Veh :=
  [("veiculo", PyVal.str "corolla"), ("km", PyVal.str "80000"), ("sequencia", PyVal.str "1")]
def vCorollaB : Veh :=
  [("veiculo", PyVal.str "corolla"), ("km", PyVal.str "100000"), ("sequencia", PyVal.str "2")]

/-- C3 counterexample: with kmmax=50000 and minimum matching mileage 80000, the
claim puts the band at [80000, anchor+30000] = [80000, 110000], so the
100000-km corolla should be included; the code instead caps the band at
kmmax+30000 = 80000 and excludes it, keeping only the 80000-km record. -/
theorem C3_counterexample :
    apply_range_filters (apply_filters asciiEnv [vCorollaA, vCorollaB] [("veiculo", "corolla")])
      Option.none Option.none (some "50000") = [vCorollaA] := by decide

theorem pyInsert_perm {α : Type} (le : α → α → Bool) (x : α) (l : List α) :
    (pyInsert le x l).Perm (x :: l) := by
  induction l with
  | nil => exact List.Perm.refl _
  | cons y ys ih =>
    unfold pyInsert
    by_cases h : le x y
    · rw [if_pos h]
    · rw [if_neg h]
      exact (ih.cons y).trans (List.Perm.swap x y ys)

theorem pySorted_perm {α : Type} (le : α → α → Bool) (l : List α) :
    (pySorted le l).Perm l := by
  induction l with
  | nil => exact List.Perm.refl _
  | cons x xs ih => exact (pyInsert_perm le x (pySorted le xs)).trans (ih.cons x)

/-- When every element of a non-empty list is the record v, the KmMax sort puts
v first. -/
theorem sort_vehicles_km_head {vs : List Veh} {s : String} (hs : s ≠ "") (v : Veh)
    (hv : v ∈ vs) (hall : ∀ w ∈ vs, w = v) :
    (sort_vehicles vs Option.none Option.none (some s)).head? = some v := by
  have hne : vs ≠ [] := List.ne_nil_of_mem hv
  unfold sort_vehicles
  rw [if_neg (by simp [hne]), if_pos (by simp [optActive, hs])]
  have hperm := pySorted_perm (fun a b => kmLe (kmSortKey a) (kmSortKey b)) vs
  rcases hsort : pySorted (fun a b => kmLe (kmSortKey a) (kmSortKey b)) vs with _ | ⟨u, rest⟩
  · rw [hsort] at hperm
    exact absurd hperm.symm.eq_nil hne
  · rw [hsort] at hperm
    have hu : u ∈ vs := hperm.mem_iff.mp (List.mem_cons_self u rest)
    simp [hall u hu]

/-- C3 (amended): for a query with a model filter and kmmax=50000 whose
model-matching candidates have minimum parsed mileage 80000 (held by the single
record v), the band anchors its lower bound at 80000 and its upper bound at
kmmax+30000 = 80000 (not anchor+30000 = 110000, see the counterexample); the
80000-km record is included in the result and, under the kmmax ascending-mileage
sort rule, is sorted first. -/
theorem C3_band_anchored_at_min (env : FuzzEnv) (vs : List Veh) (x s : String) (v : Veh)
    (hp : parsePyInt s = some 50000) (hs : s ≠ "")
    (hv : v ∈ apply_filters env vs [("veiculo", x)])
    (hkm : convert_km (vget v "km" PyVal.none) = some 80000)
    (hmin : ∀ w ∈ apply_filters env vs [("veiculo", x)], ∀ mw : Int,
      convert_km (vget w "km" PyVal.none) = some mw → 80000 ≤ mw)
    (huniq : ∀ w ∈ apply_filters env vs [("veiculo", x)],
      convert_km (vget w "km" PyVal.none) = some 80000 → w = v) :
    v ∈ apply_range_filters (apply_filters env vs [("veiculo", x)])
        Option.none Option.none (some s) ∧
    (sort_vehicles (apply_range_filters (apply_filters env vs [("veiculo", x)])
        Option.none Option.none (some s)) Option.none Option.none (some s)).head? = some v := by
  have hact : optActive (some s) = true := by simp [optActive, hs]
  have hvmem : v ∈ apply_range_filters (apply_filters env vs [("veiculo", x)])
      Option.none Option.none (some s) :=
    km_band_keeps_min _ s 50000 80000 v hp hs hv hkm hmin (by decide) (by decide)
  have hmem : (80000 : Int) ∈ (apply_filters env vs [("veiculo", x)]).filterMap
      (fun v => convert_km (vget v "km" PyVal.none)) :=
    List.mem_filterMap.mpr ⟨v, hv, hkm⟩
  have hminl : ∀ b ∈ (apply_filters env vs [("veiculo", x)]).filterMap
      (fun v => convert_km (vget v "km" PyVal.none)), (80000 : Int) ≤ b := by
    intro b hb
    obtain ⟨w, hw, hwb⟩ := List.mem_filterMap.mp hb
    exact hmin w hw b hwb
  have hall : ∀ w ∈ apply_range_filters (apply_filters env vs [("veiculo", x)])
      Option.none Option.none (some s), w = v := by
    intro w hw
    rw [apply_range_filters_kmonly] at hw
    simp only [hact, if_true, Option.getD_some, hp] at hw
    rw [min?_int_eq_some hmem hminl] at hw
    obtain ⟨hwfl, hwp⟩ := List.mem_filter.mp hw
    rcases hck : convert_km (vget w "km" PyVal.none) with _ | kv
    · rw [hck] at hwp
      simp at hwp
    · rw [hck] at hwp
      simp at hwp
      have h1 : (80000 : Int) ≤ kv := by simpa using hwp.1
      have h2 : kv ≤ (80000 : Int) := by omega
      have hk80 : kv = 80000 := le_antisymm h2 h1
      subst hk80
      exact huniq w hwfl hck
  exact ⟨hvmem, sort_vehicles_km_head hs v hvmem hall⟩

/-- Closed instance of C3 (amended) on the two-corolla snapshot. -/
theorem C3_band_witness :
    vCorollaA ∈ apply_range_filters
        (apply_filters asciiEnv [vCorollaA, vCorollaB] [("veiculo", "corolla")])
        Option.none Option.none (some "50000") ∧
    (sort_vehicles (apply_range_filters
        (apply_filters asciiEnv [vCorollaA, vCorollaB] [("veiculo", "corolla")])
        Option.none Option.none (some "50000")) Option.none Option.none
        (some "50000")).head? = some vCorollaA := by
  have hfs : apply_filters asciiEnv [vCorollaA, vCorollaB] [("veiculo", "corolla")]
      = [vCorollaA, vCorollaB] := by decide
  refine C3_band_anchored_at_min asciiEnv [vCorollaA, vCorollaB] "corolla" "50000" vCorollaA
    (by decide) (by decide) (by rw [hfs]; decide) ?_ ?_ ?_
  · decide
  · intro w hw mw hmw
    rw [hfs] at hw
    simp [List.mem_cons] at hw
    rcases hw with rfl | rfl
    · have hck : convert_km (vget vCorollaA "km" PyVal.none) = some 80000 := by decide
      rw [hck] at hmw
      injection hmw with h
      omega
    · have hck : convert_km (vget vCorollaB "km" PyVal.none) = some 100000 := by decide
      rw [hck] at hmw
      injection hmw with h
      omega
  · intro w hw hk80
    rw [hfs] at hw
    simp [List.mem_cons] at hw
    rcases hw with rfl | rfl
    · rfl
    · have hck : convert_km (vget vCorollaB "km" PyVal.none) = some 100000 := by decide
      rw [hck] at hk80
      exact absurd hk80 (by decide)

/-! ### C5 and C6: early stages of the fallback state machine -/

/-- C5: when the strict attempt returns no results and exactly one (active,
non-empty-valued) filter is present and it is not the model filter "veiculo",
search_with_fallback returns an empty result immediately with reason
single_filter_not_model: no filters or range bounds are removed, the
removed-filters list is empty, and the configuration trace contains only the
strict attempt, so no relaxation is performed. -/
theorem C5_single_non_model_short_circuit (env : FuzzEnv) (vs : List Veh) (k val : String)
    (vmax amax kmax : Option String) (excl : List String)
    (hk : k ≠ "veiculo") (hval : val ≠ "")
    (hempty : runAttempt env vs ⟨[(k, val)], vmax, amax, kmax⟩ excl = []) :
    search_with_fallback_full env vs [(k, val)] vmax amax kmax excl =
      ((⟨[], 0, .noFallback "single_filter_not_model", []⟩ : SearchResult),
       [⟨[(k, val)], vmax, amax, kmax⟩]) := by
  unfold search_with_fallback_full
  simp [hempty, hk]

def w5rec : Veh := [("cor", PyVal.str "prata")]

/-- Closed instance of C5: single filter cor=branco with no match. -/
theorem C5_short_circuit_witness :
    search_with_fallback_full asciiEnv [w5rec] [("cor", "branco")]
        Option.none Option.none Option.none [] =
      ((⟨[], 0, .noFallback "single_filter_not_model", []⟩ : SearchResult),
       [⟨[("cor", "branco")], Option.none, Option.none, Option.none⟩]) :=
  C5_single_non_model_short_circuit asciiEnv [w5rec] "cor" "branco"
    Option.none Option.none Option.none [] (by decide) (by decide) (by decide)

/-- C6: when the model filter is active, the strict attempt fails, and no record
in the entire unfiltered collection fuzzy-matches the model value, the
orchestrator drops the model filter, records it as removed, and — at least one
filter remaining — retries filtering+ranging+exclusion with the reduced set; on
success it returns the capped results with fallback-info carrying the removed
tag and reason model_not_found_in_database. -/
theorem C6_model_not_found_fallback (env : FuzzEnv) (vs : List Veh)
    (filters : List (String × String)) (vmax amax kmax : Option String)
    (excl : List String) (mv : String)
    (hfind : filters.find? (fun p => p.1 == "veiculo") = some ("veiculo", mv))
    (hempty : runAttempt env vs ⟨filters, vmax, amax, kmax⟩ excl = [])
    (hnx : model_exists_in_database env vs mv = false)
    (hrem : filters.filter (fun p => p.1 ≠ "veiculo") ≠ [])
    (hsucc : runAttempt env vs ⟨filters.filter (fun p => p.1 ≠ "veiculo"), vmax, amax, kmax⟩
      excl ≠ []) :
    search_with_fallback_full env vs filters vmax amax kmax excl =
      (successResult
        (runAttempt env vs ⟨filters.filter (fun p => p.1 ≠ "veiculo"), vmax, amax, kmax⟩ excl)
        vmax amax kmax
        (.fallback ["veiculo(" ++ mv ++ ")"] (some "model_not_found_in_database"))
        ["veiculo(" ++ mv ++ ")"],
       [⟨filters, vmax, amax, kmax⟩,
        ⟨filters.filter (fun p => p.1 ≠ "veiculo"), vmax, amax, kmax⟩]) := by
  have hany : filters.any (fun p => p.1 == "veiculo") = true :=
    List.any_eq_true.mpr ⟨("veiculo", mv), List.mem_of_find?_eq_some hfind, by simp⟩
  unfold search_with_fallback_full
  set F := List.filter (fun p => decide (p.1 ≠ "veiculo")) filters with hF
  simp [hempty, hany, hfind, hnx, hrem, hsucc]

def w6onix : Veh := [("veiculo", PyVal.str "onix"), ("cor", PyVal.str "azul"), ("sequencia", PyVal.str "1")]

/-- Closed instance of C6: model "civic" does not exist in the snapshot, the
blue filter alone succeeds after the model filter is dropped. -/
theorem C6_model_not_found_witness :
    search_with_fallback_full asciiEnv [w6onix] [("veiculo", "civic"), ("cor", "azul")]
        Option.none Option.none Option.none [] =
      (successResult
        (runAttempt asciiEnv [w6onix]
          ⟨[("veiculo", "civic"), ("cor", "azul")].filter (fun p => p.1 ≠ "veiculo"),
            Option.none, Option.none, Option.none⟩ [])
        Option.none Option.none Option.none
        (.fallback ["veiculo(" ++ "civic" ++ ")"] (some "model_not_found_in_database"))
        ["veiculo(" ++ "civic" ++ ")"],
       [⟨[("veiculo", "civic"), ("cor", "azul")], Option.none, Option.none, Option.none⟩,
        ⟨[("veiculo", "civic"), ("cor", "azul")].filter (fun p => p.1 ≠ "veiculo"),
          Option.none, Option.none, Option.none⟩]) :=
  C6_model_not_found_fallback asciiEnv [w6onix] [("veiculo", "civic"), ("cor", "azul")]
    Option.none Option.none Option.none [] "civic"
    (by decide) (by decide) (by decide) (by decide) (by decide)

/-! ### Active-constraint bookkeeping for the relaxation invariants (C1, C7) -/

/-- The names of the active constraints of a configuration: the keys of the
filters with non-empty values followed by the active range-bound names. -/
def configActive (c : Config) : List String :=
  (c.filters.filter (fun p => p.2 ≠ "")).map Prod.fst ++
    (if optActive c.kmmax then ["KmMax"] else []) ++
    (if optActive c.anomax then ["AnoMax"] else []) ++
    (if optActive c.valormax then ["ValorMax"] else [])

/-- One relaxation step: the later configuration's active names are the earlier
configuration's with exactly one occurrence of one active name removed. -/
def removesOne (c d : Config) : Prop :=
  ∃ x ∈ configActive c, configActive d = (configActive c).erase x

theorem filter_val_eq_self {cur : List (String × String)}
    (h : ∀ p ∈ cur, p.2 ≠ "") : cur.filter (fun p => p.2 ≠ "") = cur := by
  rw [List.filter_eq_self]
  intro p hp
  simpa using h p hp

theorem not_mem_keys {fl : List (String × String)} {x : String}
    (h : ∀ p ∈ fl, p.1 ≠ x) :
    x ∉ (fl.filter (fun p => p.2 ≠ "")).map Prod.fst := by
  intro hx
  obtain ⟨p, hp, hpx⟩ := List.mem_map.mp hx
  exact h p (List.mem_of_mem_filter hp) hpx

theorem filter_key_ne_of_not_mem {l : List (String × String)} {f : String}
    (h : f ∉ l.map Prod.fst) : l.filter (fun p => p.1 ≠ f) = l := by
  rw [List.filter_eq_self]
  intro p hp
  have hne : p.1 ≠ f := fun he => h (he ▸ List.mem_map_of_mem Prod.fst hp)
  simpa using hne

theorem length_filter_key_ne {cur : List (String × String)} {f : String}
    (hnd : (cur.map Prod.fst).Nodup) (hmem : ∃ p ∈ cur, p.1 = f) :
    (cur.filter (fun p => p.1 ≠ f)).length + 1 = cur.length := by
  induction cur with
  | nil => simp at hmem
  | cons a l ih =>
    rw [List.map_cons, List.nodup_cons] at hnd
    obtain ⟨ha, hl⟩ := hnd
    by_cases haf : a.1 = f
    · have hrest : l.filter (fun p => p.1 ≠ f) = l :=
        filter_key_ne_of_not_mem (haf ▸ ha)
      rw [List.filter_cons, if_neg (by simpa using haf), hrest]
      simp
    · obtain ⟨p, hp, hpf⟩ := hmem
      have hp' : p ∈ l := by
        rcases List.mem_cons.mp hp with rfl | h'
        · exact absurd hpf haf
        · exact h'
      have hih := ih hl ⟨p, hp', hpf⟩
      simp only [List.filter_cons, List.length_cons]
      rw [if_pos (by simpa using haf)]
      simpa using hih

theorem map_fst_filter_key_ne {cur : List (String × String)} {f : String}
    (hnd : (cur.map Prod.fst).Nodup) (hmem : ∃ p ∈ cur, p.1 = f) :
    (cur.filter (fun p => p.1 ≠ f)).map Prod.fst = (cur.map Prod.fst).erase f := by
  induction cur with
  | nil => simp at hmem
  | cons a l ih =>
    rw [List.map_cons, List.nodup_cons] at hnd
    obtain ⟨ha, hl⟩ := hnd
    by_cases haf : a.1 = f
    · have hrest : l.filter (fun p => p.1 ≠ f) = l :=
        filter_key_ne_of_not_mem (haf ▸ ha)
      rw [List.map_cons]
      rw [List.filter_cons, if_neg (by simpa using haf), hrest, haf, List.erase_cons_head]
    · obtain ⟨p, hp, hpf⟩ := hmem
      have hp' : p ∈ l := by
        rcases List.mem_cons.mp hp with rfl | h'
        · exact absurd hpf haf
        · exact h'
      rw [List.map_cons, List.filter_cons, if_pos (by simpa using haf), List.map_cons,
        List.erase_cons_tail (by simpa using haf), ih hl ⟨p, hp', hpf⟩]

theorem removesOne_filter_step {cur : List (String × String)} {f : String}
    (v a k : Option String)
    (hvals : ∀ p ∈ cur, p.2 ≠ "") (hnd : (cur.map Prod.fst).Nodup)
    (hmem : ∃ p ∈ cur, p.1 = f) :
    removesOne ⟨cur, v, a, k⟩ ⟨cur.filter (fun p => p.1 ≠ f), v, a, k⟩ := by
  have hvals' : ∀ p ∈ cur.filter (fun p => p.1 ≠ f), p.2 ≠ "" :=
    fun p hp => hvals p (List.mem_of_mem_filter hp)
  have hfkeys : f ∈ (cur.filter (fun p => p.2 ≠ "")).map Prod.fst := by
    rw [filter_val_eq_self hvals]
    obtain ⟨p, hp, hpf⟩ := hmem
    exact hpf ▸ List.mem_map_of_mem Prod.fst hp
  refine ⟨f, ?_, ?_⟩
  · unfold configActive
    exact List.mem_append_left _ (List.mem_append_left _ (List.mem_append_left _ hfkeys))
  · unfold configActive
    rw [filter_val_eq_self hvals', filter_val_eq_self hvals,
      map_fst_filter_key_ne hnd hmem]
    rw [filter_val_eq_self hvals] at hfkeys
    rw [List.erase_append_left _ (List.mem_append_left _ (List.mem_append_left _ hfkeys)),
      List.erase_append_left _ (List.mem_append_left _ hfkeys),
      List.erase_append_left _ hfkeys]

theorem removesOne_range_km {fl : List (String × String)} (v a : Option String)
    {k : Option String} (hvocab : ∀ p ∈ fl, p.1 ∉ RANGE_FALLBACK)
    (hk : optActive k = true) :
    removesOne ⟨fl, v, a, k⟩ ⟨fl, v, a, Option.none⟩ := by
  have hkeys : "KmMax" ∉ (fl.filter (fun p => p.2 ≠ "")).map Prod.fst :=
    not_mem_keys (fun p hp he => hvocab p hp (by rw [he]; simp [RANGE_FALLBACK]))
  refine ⟨"KmMax", ?_, ?_⟩
  · unfold configActive
    exact List.mem_append_left _ (List.mem_append_left _
      (List.mem_append_right _ (by simp [hk])))
  · unfold configActive
    simp only [hk, if_true]
    show _ ++ (if optActive Option.none then ["KmMax"] else []) ++ _ ++ _ = _
    rw [List.erase_append_left _ (List.mem_append_left _
        (List.mem_append_right _ (by simp))),
      List.erase_append_left _ (List.mem_append_right _ (by simp)),
      List.erase_append_right _ hkeys]
    rfl

theorem removesOne_range_ano {fl : List (String × String)} (v k : Option String)
    {a : Option String} (hvocab : ∀ p ∈ fl, p.1 ∉ RANGE_FALLBACK)
    (ha : optActive a = true) :
    removesOne ⟨fl, v, a, k⟩ ⟨fl, v, Option.none, k⟩ := by
  have hkeys : "AnoMax" ∉ (fl.filter (fun p => p.2 ≠ "")).map Prod.fst :=
    not_mem_keys (fun p hp he => hvocab p hp (by rw [he]; simp [RANGE_FALLBACK]))
  have hkm : "AnoMax" ∉ (if optActive k then ["KmMax"] else ([] : List String)) := by
    cases optActive k <;> simp
  refine ⟨"AnoMax", ?_, ?_⟩
  · unfold configActive
    exact List.mem_append_left _ (List.mem_append_right _ (by simp [ha]))
  · unfold configActive
    simp only [ha, if_true]
    show _ ++ _ ++ (if optActive Option.none then ["AnoMax"] else []) ++ _ = _
    rw [List.erase_append_left _ (List.mem_append_right _ (by simp)),
      List.erase_append_right _ (by
        intro hmem
        rcases List.mem_append.mp hmem with h | h
        · exact hkeys h
        · exact hkm h)]
    rfl

theorem removesOne_range_valor {fl : List (String × String)} (a k : Option String)
    {v : Option String} (hvocab : ∀ p ∈ fl, p.1 ∉ RANGE_FALLBACK)
    (hv : optActive v = true) :
    removesOne ⟨fl, v, a, k⟩ ⟨fl, Option.none, a, k⟩ := by
  have hkeys : "ValorMax" ∉ (fl.filter (fun p => p.2 ≠ "")).map Prod.fst :=
    not_mem_keys (fun p hp he => hvocab p hp (by rw [he]; simp [RANGE_FALLBACK]))
  have hkm : "ValorMax" ∉ (if optActive k then ["KmMax"] else ([] : List String)) := by
    cases optActive k <;> simp
  have han : "ValorMax" ∉ (if optActive a then ["AnoMax"] else ([] : List String)) := by
    cases optActive a <;> simp
  refine ⟨"ValorMax", ?_, ?_⟩
  · unfold configActive
    exact List.mem_append_right _ (by simp [hv])
  · unfold configActive
    simp only [hv, if_true]
    show _ ++ _ ++ _ ++ (if optActive Option.none then ["ValorMax"] else []) = _
    rw [List.erase_append_right _ (by
      intro hmem
      rcases List.mem_append.mp hmem with h | h
      · rcases List.mem_append.mp h with h' | h'
        · exact hkeys h'
        · exact hkm h'
      · exact han h)]
    rfl

/-- Invariants of the range-relaxation loop: the configuration reached after
each removal extends a chain of single removals starting at the entry
configuration; the final range state is the last configuration of that chain;
the removed list grows by exactly one name per step; and an early success
reports exactly the accumulated removed list. -/
theorem rangeLoop_spec (env : FuzzEnv) (vs : List Veh) (fl : List (String × String))
    (excl : List String) (hvocab : ∀ p ∈ fl, p.1 ∉ RANGE_FALLBACK) :
    ∀ (prios : List String) (v a k : Option String) (removed : List String),
      List.Chain' removesOne
        (⟨fl, v, a, k⟩ :: (rangeLoop env vs fl excl prios v a k removed).steps) ∧
      (⟨fl, v, a, k⟩ :: (rangeLoop env vs fl excl prios v a k removed).steps).getLast? =
        some ⟨fl, (rangeLoop env vs fl excl prios v a k removed).valormax,
          (rangeLoop env vs fl excl prios v a k removed).anomax,
          (rangeLoop env vs fl excl prios v a k removed).kmmax⟩ ∧
      (rangeLoop env vs fl excl prios v a k removed).removed.length =
        removed.length + (rangeLoop env vs fl excl prios v a k removed).steps.length ∧
      (∀ r, (rangeLoop env vs fl excl prios v a k removed).result = some r →
        r.removed_filters = (rangeLoop env vs fl excl prios v a k removed).removed) := by
  intro prios
  induction prios with
  | nil =>
    intro v a k removed
    refine ⟨by simp [rangeLoop], by simp [rangeLoop], by simp [rangeLoop], ?_⟩
    intro r hr
    simp [rangeLoop] at hr
  | cons p ps ih =>
    intro v a k removed
    simp only [rangeLoop]
    by_cases h1 : (p == "ValorMax" && optActive v) = true
    · rw [if_pos h1]
      have hv1 : optActive v = true := by
        have h1' : p = "ValorMax" ∧ optActive v = true := by simpa using h1
        exact h1'.2
      have hstep : removesOne ⟨fl, v, a, k⟩ ⟨fl, Option.none, a, k⟩ :=
        removesOne_range_valor a k hvocab hv1
      unfold rangeFinish
      by_cases he : (runAttempt env vs ⟨fl, Option.none, a, k⟩ excl).isEmpty = true
      · rw [if_pos he]
        obtain ⟨ihc, ihl, ihn, ihr⟩ := ih Option.none a k (removed ++ [p])
        refine ⟨List.chain'_cons.mpr ⟨hstep, ihc⟩, ?_, ?_, ihr⟩
        · show (_ :: _ :: (rangeLoop env vs fl excl ps Option.none a k (removed ++ [p])).steps).getLast? = _
          rw [List.getLast?_cons_cons]
          exact ihl
        · show (rangeLoop env vs fl excl ps Option.none a k (removed ++ [p])).removed.length =
            removed.length + ((⟨fl, Option.none, a, k⟩ : Config) ::
              (rangeLoop env vs fl excl ps Option.none a k (removed ++ [p])).steps).length
          rw [ihn]
          simp only [List.length_append, List.length_cons, List.length_nil]
          omega
      · rw [if_neg he]
        refine ⟨List.chain'_pair.mpr hstep, by simp, by simp, ?_⟩
        intro r hr
        simp only [Option.some.injEq] at hr
        rw [← hr]
        rfl
    · rw [if_neg h1]
      by_cases h2 : (p == "AnoMax" && optActive a) = true
      · rw [if_pos h2]
        have ha2 : optActive a = true := by
          have h2' : p = "AnoMax" ∧ optActive a = true := by simpa using h2
          exact h2'.2
        have hstep : removesOne ⟨fl, v, a, k⟩ ⟨fl, v, Option.none, k⟩ :=
          removesOne_range_ano v k hvocab ha2
        unfold rangeFinish
        by_cases he : (runAttempt env vs ⟨fl, v, Option.none, k⟩ excl).isEmpty = true
        · rw [if_pos he]
          obtain ⟨ihc, ihl, ihn, ihr⟩ := ih v Option.none k (removed ++ [p])
          refine ⟨List.chain'_cons.mpr ⟨hstep, ihc⟩, ?_, ?_, ihr⟩
          · show (_ :: _ :: (rangeLoop env vs fl excl ps v Option.none k (removed ++ [p])).steps).getLast? = _
            rw [List.getLast?_cons_cons]
            exact ihl
          · show (rangeLoop env vs fl excl ps v Option.none k (removed ++ [p])).removed.length =
              removed.length + ((⟨fl, v, Option.none, k⟩ : Config) ::
                (rangeLoop env vs fl excl ps v Option.none k (removed ++ [p])).steps).length
            rw [ihn]
            simp only [List.length_append, List.length_cons, List.length_nil]
            omega
        · rw [if_neg he]
          refine ⟨List.chain'_pair.mpr hstep, by simp, by simp, ?_⟩
          intro r hr
          simp only [Option.some.injEq] at hr
          rw [← hr]
          rfl
      · rw [if_neg h2]
        by_cases h3 : (p == "KmMax" && optActive k) = true
        · rw [if_pos h3]
          have hk3 : optActive k = true := by
            have h3' : p = "KmMax" ∧ optActive k = true := by simpa using h3
            exact h3'.2
          have hstep : removesOne ⟨fl, v, a, k⟩ ⟨fl, v, a, Option.none⟩ :=
            removesOne_range_km v a hvocab hk3
          unfold rangeFinish
          by_cases he : (runAttempt env vs ⟨fl, v, a, Option.none⟩ excl).isEmpty = true
          · rw [if_pos he]
            obtain ⟨ihc, ihl, ihn, ihr⟩ := ih v a Option.none (removed ++ [p])
            refine ⟨List.chain'_cons.mpr ⟨hstep, ihc⟩, ?_, ?_, ihr⟩
            · show (_ :: _ :: (rangeLoop env vs fl excl ps v a Option.none (removed ++ [p])).steps).getLast? = _
              rw [List.getLast?_cons_cons]
              exact ihl
            · show (rangeLoop env vs fl excl ps v a Option.none (removed ++ [p])).removed.length =
                removed.length + ((⟨fl, v, a, Option.none⟩ : Config) ::
                  (rangeLoop env vs fl excl ps v a Option.none (removed ++ [p])).steps).length
              rw [ihn]
              simp only [List.length_append, List.length_cons, List.length_nil]
              omega
          · rw [if_neg he]
            refine ⟨List.chain'_pair.mpr hstep, by simp, by simp, ?_⟩
            intro r hr
            simp only [Option.some.injEq] at hr
            rw [← hr]
            rfl
        · rw [if_neg h3]
          exact ih v a k removed

/-- Invariants of the filter-relaxation loop: a chain of single removals from
the entry configuration, one removed name recorded per step, an early success
reporting exactly the accumulated removed list, and — the guard of main.py line
386 — every configuration attempted by the loop still holds at least one
filter. -/
theorem filterLoop_spec (env : FuzzEnv) (vs : List Veh) (v a k : Option String)
    (excl : List String) :
    ∀ (prios : List String) (cur : List (String × String)) (removed : List String),
      (∀ p ∈ cur, p.2 ≠ "") → (cur.map Prod.fst).Nodup →
      (∀ p ∈ cur, p.1 ∉ RANGE_FALLBACK) →
      List.Chain' removesOne
        (⟨cur, v, a, k⟩ :: (filterLoop env vs v a k excl prios cur removed).steps) ∧
      (filterLoop env vs v a k excl prios cur removed).removed.length =
        removed.length + (filterLoop env vs v a k excl prios cur removed).steps.length ∧
      (∀ r, (filterLoop env vs v a k excl prios cur removed).result = some r →
        r.removed_filters = (filterLoop env vs v a k excl prios cur removed).removed) ∧
      (∀ cfg ∈ (filterLoop env vs v a k excl prios cur removed).steps,
        cfg.filters ≠ []) := by
  intro prios
  induction prios with
  | nil =>
    intro cur removed _ _ _
    refine ⟨by simp [filterLoop], by simp [filterLoop], ?_, by simp [filterLoop]⟩
    intro r hr
    simp [filterLoop] at hr
  | cons f fs ih =>
    intro cur removed hvals hnd hvocab
    simp only [filterLoop]
    by_cases hpres : (cur.any fun p => p.1 == f) = true
    · rw [if_neg (by simp [hpres])]
      by_cases hlen : ((cur.filter (fun p => p.2 ≠ "")).length ≤ 1)
      · rw [if_pos hlen]
        refine ⟨by simp, by simp, ?_, by simp⟩
        intro r hr
        simp at hr
      · rw [if_neg hlen]
        have hmem : ∃ p ∈ cur, p.1 = f := by
          obtain ⟨p, hp, hpe⟩ := List.any_eq_true.mp hpres
          exact ⟨p, hp, by simpa using hpe⟩
        have hvals' : ∀ p ∈ cur.filter (fun p => p.1 ≠ f), p.2 ≠ "" :=
          fun p hp => hvals p (List.mem_of_mem_filter hp)
        have hnd' : ((cur.filter (fun p => p.1 ≠ f)).map Prod.fst).Nodup :=
          List.Nodup.sublist ((List.filter_sublist cur).map Prod.fst) hnd
        have hvocab' : ∀ p ∈ cur.filter (fun p => p.1 ≠ f), p.1 ∉ RANGE_FALLBACK :=
          fun p hp => hvocab p (List.mem_of_mem_filter hp)
        have hstep : removesOne ⟨cur, v, a, k⟩ ⟨cur.filter (fun p => p.1 ≠ f), v, a, k⟩ :=
          removesOne_filter_step v a k hvals hnd hmem
        have hcur_len : (cur.filter (fun p => p.1 ≠ f)).length + 1 = cur.length :=
          length_filter_key_ne hnd hmem
        have hcur2 : 2 ≤ cur.length := by
          rw [filter_val_eq_self hvals] at hlen
          omega
        have hne' : cur.filter (fun p => p.1 ≠ f) ≠ [] :=
          List.length_pos.mp (by omega)
        unfold filterFinish
        by_cases he :
            (runAttempt env vs ⟨cur.filter (fun p => p.1 ≠ f), v, a, k⟩ excl).isEmpty = true
        · rw [if_pos he]
          obtain ⟨ihc, ihn, ihr, ihs⟩ :=
            ih (cur.filter (fun p => p.1 ≠ f)) (removed ++ [f]) hvals' hnd' hvocab'
          refine ⟨List.chain'_cons.mpr ⟨hstep, ihc⟩, ?_, ihr, ?_⟩
          · show (filterLoop env vs v a k excl fs (cur.filter (fun p => p.1 ≠ f))
                (removed ++ [f])).removed.length =
              removed.length + ((⟨cur.filter (fun p => p.1 ≠ f), v, a, k⟩ : Config) ::
                (filterLoop env vs v a k excl fs (cur.filter (fun p => p.1 ≠ f))
                  (removed ++ [f])).steps).length
            rw [ihn]
            simp only [List.length_append, List.length_cons, List.length_nil]
            omega
          · intro cfg hcfg
            rcases List.mem_cons.mp hcfg with rfl | h'
            · exact hne'
            · exact ihs cfg h'
        · rw [if_neg he]
          refine ⟨List.chain'_pair.mpr hstep, by simp, ?_, ?_⟩
          · intro r hr
            simp only [Option.some.injEq] at hr
            rw [← hr]
            rfl
          · intro cfg hcfg
            have hc : cfg = ⟨cur.filter (fun p => p.1 ≠ f), v, a, k⟩ := by simpa using hcfg
            rw [hc]
            exact hne'
    · have hany : (cur.any fun p => p.1 == f) = false := by
        cases hh : (cur.any fun p => p.1 == f)
        · rfl
        · exact absurd hh hpres
      rw [if_pos (by rw [hany]; rfl)]
      exact ih cur removed hvals hnd hvocab

/-! ### C1: how far the filter-relaxation phase can go -/

/-- C1 (amended): in the filter-relaxation phase of search_with_fallback the
loop stops before removing a filter if that removal would leave fewer than ONE
active filter: every configuration it attempts still holds at least one active
filter.  The claim's stronger bound of two fails: the guard of main.py line 386
breaks only when at most one filter is left BEFORE removal, so a step from two
active filters down to a single one does occur (see the counterexample). -/
theorem C1_filter_phase_keeps_one (env : FuzzEnv) (vs : List Veh)
    (v a k : Option String) (excl : List String) (prios : List String)
    (cur : List (String × String)) (removed : List String)
    (hvals : ∀ p ∈ cur, p.2 ≠ "") (hnd : (cur.map Prod.fst).Nodup)
    (hvocab : ∀ p ∈ cur, p.1 ∉ RANGE_FALLBACK) :
    ∀ cfg ∈ (filterLoop env vs v a k excl prios cur removed).steps, cfg.filters ≠ [] :=
  (filterLoop_spec env vs v a k excl prios cur removed hvals hnd hvocab).2.2.2

def c1veh : Veh :=
  [("veiculo", PyVal.str "corolla"), ("cor", PyVal.str "prata"), ("sequencia", PyVal.str "1")]

/-- C1 counterexample: a query with exactly two active filters (cor, veiculo)
whose strict attempt fails and whose model exists in the snapshot.  The
filter-relaxation phase removes cor and runs an attempt whose configuration has
a single active filter — the trace of attempted configurations has filter
counts [2, 1] and the successful relaxed result reports cor as removed — which
the claim ("never yields a configuration with only a single remaining active
filter") forbids. -/
theorem C1_counterexample :
    ((search_with_fallback_full asciiEnv [c1veh] [("cor", "branco"), ("veiculo", "corolla")]
        Option.none Option.none Option.none []).2).map (fun c => c.filters.length)
      = [2, 1] ∧
    (search_with_fallback_full asciiEnv [c1veh] [("cor", "branco"), ("veiculo", "corolla")]
        Option.none Option.none Option.none []).1.removed_filters = ["cor"] :=
  ⟨by decide, by decide⟩

/-- Closed instance of C1 (amended): a filter loop run over two active filters
attempts exactly the single-filter configuration, which retains one filter. -/
theorem C1_filter_phase_witness :
    (filterLoop asciiEnv [] Option.none Option.none Option.none [] FALLBACK_PRIORITY
        [("cor", "branco"), ("ano", "2020")] []).steps =
      [⟨[("ano", "2020")], Option.none, Option.none, Option.none⟩] ∧
    (⟨[("ano", "2020")], Option.none, Option.none, Option.none⟩ : Config).filters ≠ [] :=
  ⟨by decide,
   C1_filter_phase_keeps_one asciiEnv [] Option.none Option.none Option.none []
     FALLBACK_PRIORITY [("cor", "branco"), ("ano", "2020")] []
     (by decide) (by decide) (by decide)
     ⟨[("ano", "2020")], Option.none, Option.none, Option.none⟩ (by decide)⟩

/-! ### C7: relaxation is strictly monotone -/

theorem removesOne_subset {c d : Config} (h : removesOne c d) :
    configActive d ⊆ configActive c := by
  obtain ⟨x, _, he⟩ := h
  rw [he]
  exact List.erase_subset x (configActive c)

theorem chain'_removesOne_pairwise {tr : List Config} (h : List.Chain' removesOne tr) :
    List.Pairwise (fun c d => configActive d ⊆ configActive c) tr := by
  haveI : IsTrans Config (fun c d => configActive d ⊆ configActive c) :=
    ⟨fun _ _ _ hab hbc x hx => hab (hbc hx)⟩
  exact List.chain'_iff_pairwise.mp
    (List.Chain'.imp (fun _ _ hab => removesOne_subset hab) h)

theorem chain'_glue {R : Config → Config → Prop} {c d : Config} {l l' : List Config}
    (h1 : List.Chain' R (c :: l)) (h2 : (c :: l).getLast? = some d)
    (h3 : List.Chain' R (d :: l')) : List.Chain' R (c :: (l ++ l')) := by
  have hsplit : (c :: l) ++ l' = c :: (l ++ l') := rfl
  rw [← hsplit, List.chain'_append]
  refine ⟨h1, (List.chain'_cons'.mp h3).2, ?_⟩
  intro x hx y hy
  rw [h2] at hx
  have hx' : x = d := by simpa [eq_comm] using hx
  subst hx'
  exact (List.chain'_cons'.mp h3).1 y hy

/-- Combined invariant of the two relaxation loops: a chain of single removals
from the entry configuration, with the final removed count equal to the entry
count plus the number of steps. -/
theorem runLoops_spec (env : FuzzEnv) (vs : List Veh) (cur : List (String × String))
    (vmax amax kmax : Option String) (excl : List String) (removed0 : List String)
    (hvals : ∀ p ∈ cur, p.2 ≠ "") (hnd : (cur.map Prod.fst).Nodup)
    (hvocab : ∀ p ∈ cur, p.1 ∉ RANGE_FALLBACK) :
    List.Chain' removesOne
      (⟨cur, vmax, amax, kmax⟩ :: (runLoops env vs cur vmax amax kmax excl removed0).2) ∧
    (runLoops env vs cur vmax amax kmax excl removed0).1.removed_filters.length =
      removed0.length + (runLoops env vs cur vmax amax kmax excl removed0).2.length := by
  obtain ⟨rc, rl, rn, rr⟩ :=
    rangeLoop_spec env vs cur excl hvocab RANGE_FALLBACK vmax amax kmax removed0
  unfold runLoops
  rcases hres : (rangeLoop env vs cur excl RANGE_FALLBACK vmax amax kmax removed0).result
    with _ | r
  · simp only [hres]
    obtain ⟨fc, fn, fr, _⟩ := filterLoop_spec env vs
      (rangeLoop env vs cur excl RANGE_FALLBACK vmax amax kmax removed0).valormax
      (rangeLoop env vs cur excl RANGE_FALLBACK vmax amax kmax removed0).anomax
      (rangeLoop env vs cur excl RANGE_FALLBACK vmax amax kmax removed0).kmmax
      excl FALLBACK_PRIORITY cur
      (rangeLoop env vs cur excl RANGE_FALLBACK vmax amax kmax removed0).removed
      hvals hnd hvocab
    have hglue := chain'_glue rc rl fc
    rcases hfres : (filterLoop env vs
        (rangeLoop env vs cur excl RANGE_FALLBACK vmax amax kmax removed0).valormax
        (rangeLoop env vs cur excl RANGE_FALLBACK vmax amax kmax removed0).anomax
        (rangeLoop env vs cur excl RANGE_FALLBACK vmax amax kmax removed0).kmmax
        excl FALLBACK_PRIORITY cur
        (rangeLoop env vs cur excl RANGE_FALLBACK vmax amax kmax removed0).removed).result
      with _ | r2
    · simp only [hfres]
      refine ⟨hglue, ?_⟩
      show (filterLoop env vs _ _ _ excl FALLBACK_PRIORITY cur _).removed.length = _
      rw [fn, rn]
      simp only [List.length_append]
      omega
    · simp only [hfres]
      refine ⟨hglue, ?_⟩
      show r2.removed_filters.length = _
      rw [fr r2 hfres, fn, rn]
      simp only [List.length_append]
      omega
  · simp only [hres]
    refine ⟨rc, ?_⟩
    show r.removed_filters.length = _
    rw [rr r hres, rn]

/-- The two loops appended after an already-built removal prefix. -/
theorem runLoops_tail (env : FuzzEnv) (vs : List Veh)
    (filters cur : List (String × String)) (vmax amax kmax : Option String)
    (excl : List String) (removed0 : List String) (tr : List Config)
    (hvals : ∀ p ∈ cur, p.2 ≠ "") (hnd : (cur.map Prod.fst).Nodup)
    (hvocab : ∀ p ∈ cur, p.1 ∉ RANGE_FALLBACK)
    (hpre : List.Chain' removesOne (⟨filters, vmax, amax, kmax⟩ :: tr))
    (hlast : ((⟨filters, vmax, amax, kmax⟩ : Config) :: tr).getLast? =
      some ⟨cur, vmax, amax, kmax⟩)
    (hlen : tr.length = removed0.length) :
    List.Chain' removesOne (⟨filters, vmax, amax, kmax⟩ ::
      (tr ++ (runLoops env vs cur vmax amax kmax excl removed0).2)) ∧
    (⟨filters, vmax, amax, kmax⟩ ::
      (tr ++ (runLoops env vs cur vmax amax kmax excl removed0).2)).length =
      (runLoops env vs cur vmax amax kmax excl removed0).1.removed_filters.length + 1 := by
  obtain ⟨lc, ln⟩ := runLoops_spec env vs cur vmax amax kmax excl removed0 hvals hnd hvocab
  refine ⟨chain'_glue hpre hlast lc, ?_⟩
  simp only [List.length_cons, List.length_append]
  omega


theorem bool_not_of_ne {b : Bool} (h : ¬ b = true) : (!b) = true := by
  cases hb : b
  · rfl
  · exact absurd hb h

theorem bool_not_ne_of_eq {b : Bool} (h : b = true) : ¬ (!b) = true := by
  rw [h]
  decide

/-- C7: within a single call of search_with_fallback, relaxation is strictly
monotone.  Along the trace of configurations the state machine reaches
(strict configuration, then the configuration after each removal), each step
removes exactly one active filter or range name; consequently active sets only
shrink — no filter or range bound, once removed, is ever active again in a
later attempt — and the trace performs exactly one removal per entry of the
final removed-filters list.  Hypotheses: the query's filter values are
non-empty, its keys are distinct, and its keys are filter names, not range
names (the shape every endpoint query has). -/
theorem C7_relaxation_monotone (env : FuzzEnv) (vs : List Veh)
    (filters : List (String × String)) (vmax amax kmax : Option String)
    (excl : List String)
    (hvals : ∀ p ∈ filters, p.2 ≠ "") (hnd : (filters.map Prod.fst).Nodup)
    (hvocab : ∀ p ∈ filters, p.1 ∉ RANGE_FALLBACK) :
    List.Chain' removesOne
      (search_with_fallback_full env vs filters vmax amax kmax excl).2 ∧
    List.Pairwise (fun c d => configActive d ⊆ configActive c)
      (search_with_fallback_full env vs filters vmax amax kmax excl).2 ∧
    (search_with_fallback_full env vs filters vmax amax kmax excl).2.length =
      (search_with_fallback_full env vs filters vmax amax kmax excl).1.removed_filters.length
        + 1 := by
  have main : List.Chain' removesOne
      (search_with_fallback_full env vs filters vmax amax kmax excl).2 ∧
      (search_with_fallback_full env vs filters vmax amax kmax excl).2.length =
      (search_with_fallback_full env vs filters vmax amax kmax
        excl).1.removed_filters.length + 1 := by
    unfold search_with_fallback_full
    by_cases h0 : (runAttempt env vs ⟨filters, vmax, amax, kmax⟩ excl).isEmpty = true
    case neg =>
      simp only [if_pos (bool_not_of_ne h0)]
      exact ⟨List.chain'_singleton _, rfl⟩
    case pos =>
      simp only [if_neg (bool_not_ne_of_eq h0)]
      by_cases h1 :
          (decide (filters.length = 1) && !filters.any (fun p => p.1 == "veiculo")) = true
      case pos =>
        simp only [if_pos h1]
        exact ⟨List.chain'_singleton _, rfl⟩
      case neg =>
        simp only [if_neg h1]
        by_cases hany : (filters.any fun p => p.1 == "veiculo") = true
        case neg =>
          simp only [if_neg hany]
          exact runLoops_tail env vs filters filters vmax amax kmax excl [] []
            hvals hnd hvocab (List.chain'_singleton _) rfl rfl
        case pos =>
          simp only [if_pos hany]
          rcases hfind : filters.find? (fun p => p.1 == "veiculo") with _ | pr
          · obtain ⟨p, hp, hpe⟩ := List.any_eq_true.mp hany
            have := List.find?_eq_none.mp hfind p hp
            exact absurd hpe this
          · simp only [hfind]
            have hmem : ∃ p ∈ filters, p.1 = "veiculo" := by
              obtain ⟨p, hp, hpe⟩ := List.any_eq_true.mp hany
              exact ⟨p, hp, by simpa using hpe⟩
            have hvals1 : ∀ q ∈ filters.filter (fun p => p.1 ≠ "veiculo"), q.2 ≠ "" :=
              fun q hq => hvals q (List.mem_of_mem_filter hq)
            have hnd1 : ((filters.filter (fun p => p.1 ≠ "veiculo")).map Prod.fst).Nodup :=
              List.Nodup.sublist ((List.filter_sublist filters).map Prod.fst) hnd
            have hvocab1 : ∀ q ∈ filters.filter (fun p => p.1 ≠ "veiculo"),
                q.1 ∉ RANGE_FALLBACK :=
              fun q hq => hvocab q (List.mem_of_mem_filter hq)
            have hstep : removesOne ⟨filters, vmax, amax, kmax⟩
                ⟨filters.filter (fun p => p.1 ≠ "veiculo"), vmax, amax, kmax⟩ :=
              removesOne_filter_step vmax amax kmax hvals hnd hmem
            by_cases hex : model_exists_in_database env vs pr.2 = true
            case pos =>
              simp only [if_neg (bool_not_ne_of_eq hex)]
              exact runLoops_tail env vs filters filters vmax amax kmax excl [] []
                hvals hnd hvocab (List.chain'_singleton _) rfl rfl
            case neg =>
              simp only [if_pos (bool_not_of_ne hex)]
              by_cases hc1 :
                  (filters.filter (fun p => p.1 ≠ "veiculo")).isEmpty = true
              case pos =>
                simp only [if_neg (bool_not_ne_of_eq hc1)]
                exact runLoops_tail env vs filters
                  (filters.filter (fun p => p.1 ≠ "veiculo")) vmax amax kmax excl
                  ["veiculo(" ++ pr.2 ++ ")"]
                  [⟨filters.filter (fun p => p.1 ≠ "veiculo"), vmax, amax, kmax⟩]
                  hvals1 hnd1 hvocab1 (List.chain'_pair.mpr hstep) rfl rfl
              case neg =>
                simp only [if_pos (bool_not_of_ne hc1)]
                by_cases hf1 : (runAttempt env vs
                    ⟨filters.filter (fun p => p.1 ≠ "veiculo"), vmax, amax, kmax⟩
                    excl).isEmpty = true
                case pos =>
                  simp only [if_neg (bool_not_ne_of_eq hf1)]
                  exact runLoops_tail env vs filters
                    (filters.filter (fun p => p.1 ≠ "veiculo")) vmax amax kmax excl
                    ["veiculo(" ++ pr.2 ++ ")"]
                    [⟨filters.filter (fun p => p.1 ≠ "veiculo"), vmax, amax, kmax⟩]
                    hvals1 hnd1 hvocab1 (List.chain'_pair.mpr hstep) rfl rfl
                case neg =>
                  simp only [if_pos (bool_not_of_ne hf1)]
                  exact ⟨List.chain'_pair.mpr hstep, rfl⟩
  exact ⟨main.1, chain'_removesOne_pairwise main.1, main.2⟩

def w7veh : Veh :=
  [("veiculo", PyVal.str "corolla"), ("cor", PyVal.str "prata"), ("sequencia", PyVal.str "1")]

/-- Closed instance of C7 on a two-filter query that relaxes cor away. -/
theorem C7_relaxation_witness :
    List.Chain' removesOne
      (search_with_fallback_full asciiEnv [w7veh] [("cor", "branco"), ("veiculo", "corolla")]
        Option.none Option.none Option.none []).2 ∧
    List.Pairwise (fun c d => configActive d ⊆ configActive c)
      (search_with_fallback_full asciiEnv [w7veh] [("cor", "branco"), ("veiculo", "corolla")]
        Option.none Option.none Option.none []).2 ∧
    (search_with_fallback_full asciiEnv [w7veh] [("cor", "branco"), ("veiculo", "corolla")]
        Option.none Option.none Option.none []).2.length =
      (search_with_fallback_full asciiEnv [w7veh] [("cor", "branco"), ("veiculo", "corolla")]
        Option.none Option.none Option.none []).1.removed_filters.length + 1 :=
  C7_relaxation_monotone asciiEnv [w7veh] [("cor", "branco"), ("veiculo", "corolla")]
    Option.none Option.none Option.none [] (by decide) (by decide) (by decide)
